import Mathlib

/-!
# Verification of the 2dmatpedia ingestion / filtering / analysis pipeline

Shallow embedding of the analytically relevant logic of the repository:

* `filter_db_with_elements.py` — the element-composition eligibility
  predicate `is_material_eligible`;
* `readout_json.py` — ingestion of one raw nested record into an
  atoms object plus a key/value metadata mapping;
* `analysis_db.py` — the per-element census (`element_analysis`) and the
  per-property statistics (`analyze_property_distribution`).

Python floats are modelled as rationals (`ℚ`); Python dicts that are used
as string-keyed mappings are modelled as association lists in insertion
order, which is what CPython dictionaries guarantee.
-/

namespace Mat2d

/-! ## Eligibility filter (`filter_db_with_elements.py`) -/

/-- `first_4_rows` from `is_material_eligible`: the 36 element symbols of
rows 1–4 of the periodic table, exactly as enumerated in the source. -/
def first_4_rows : List String :=
  ["H", "He",
   "Li", "Be", "B", "C", "N", "O", "F", "Ne",
   "Na", "Mg", "Al", "Si", "P", "S", "Cl", "Ar",
   "K", "Ca", "Sc", "Ti", "V", "Cr", "Mn", "Fe", "Co", "Ni",
   "Cu", "Zn", "Ga", "Ge", "As", "Se", "Br", "Kr"]

/-- `noble_gases` from `is_material_eligible`. -/
def noble_gases : List String := ["He", "Ne", "Ar", "Kr"]

/-- `transition_metals` from `is_material_eligible`: Sc through Ni. -/
def transition_metals : List String :=
  ["Sc", "Ti", "V", "Cr", "Mn", "Fe", "Co", "Ni"]

/-- `is_material_eligible(elements_list)`: all elements in the first four
rows, no noble gas, and no transition metal from Sc to Ni.  The three
checks are translated in the order the source performs them. -/
def is_material_eligible (elements_list : List String) : Bool :=
  if ¬ (elements_list.all (fun element => decide (element ∈ first_4_rows))) then
    false
  else if elements_list.any (fun element => decide (element ∈ noble_gases)) then
    false
  else if elements_list.any (fun element => decide (element ∈ transition_metals)) then
    false
  else
    true

/-- The 24 symbols that survive all three rules: first four rows minus the
noble gases and minus Sc–Ni.  Stated from the spec side (refinement
target), not read off the source. -/
def allowed_symbols_spec : List String :=
  ["H", "Li", "Be", "B", "C", "N", "O", "F",
   "Na", "Mg", "Al", "Si", "P", "S", "Cl",
   "K", "Ca", "Cu", "Zn", "Ga", "Ge", "As", "Se", "Br"]

theorem is_material_eligible_iff (l : List String) :
    is_material_eligible l = true ↔
      ((∀ e ∈ l, e ∈ first_4_rows) ∧ (∀ e ∈ l, e ∉ noble_gases) ∧
        (∀ e ∈ l, e ∉ transition_metals)) := by
  simp only [is_material_eligible]
  by_cases h1 : l.all (fun element => decide (element ∈ first_4_rows))
  · by_cases h2 : l.any (fun element => decide (element ∈ noble_gases))
    · simp_all [List.all_eq_true, List.any_eq_true]
    · by_cases h3 : l.any (fun element => decide (element ∈ transition_metals)) <;>
        simp_all [List.all_eq_true, List.any_eq_true]
  · simp_all [List.all_eq_true, List.any_eq_true]

/-- Each of the 24 spec-side allowed symbols satisfies, and is the only way
to satisfy, the three source-side rules. -/
theorem mem_allowed_iff (e : String) :
    e ∈ allowed_symbols_spec ↔
      (e ∈ first_4_rows ∧ e ∉ noble_gases ∧ e ∉ transition_metals) := by
  constructor
  · intro h
    fin_cases h <;> decide
  · rintro ⟨h1, h2, h3⟩
    fin_cases h1 <;> revert h2 h3 <;> decide

/-- C1: eligibility holds exactly when all elements are in the 36-symbol
first-four-rows list, none is a noble gas and none is a Sc–Ni transition
metal; with the concrete scenario checks from the spec, including the
vacuously eligible empty set. -/
theorem eligibility_rules_characterization :
    (∀ S : List String, is_material_eligible S = true ↔
        ((∀ e ∈ S, e ∈ first_4_rows) ∧ (∀ e ∈ S, e ∉ noble_gases) ∧
          (∀ e ∈ S, e ∉ transition_metals)))
      ∧ is_material_eligible ["C", "H"] = true
      ∧ is_material_eligible ["C", "Sc"] = false
      ∧ is_material_eligible ["C", "Ar"] = false
      ∧ is_material_eligible ["C", "U"] = false
      ∧ is_material_eligible [] = true :=
  ⟨is_material_eligible_iff, by decide, by decide, by decide, by decide, by decide⟩

/-- C9: eligibility is monotone under removal of elements — every sublist
(indeed every list whose members all appear in an eligible list) of an
eligible list is eligible. -/
theorem eligibility_subset_closed (S T : List String) (hsub : ∀ e ∈ T, e ∈ S)
    (hS : is_material_eligible S = true) : is_material_eligible T = true := by
  rw [is_material_eligible_iff] at hS ⊢
  obtain ⟨h1, h2, h3⟩ := hS
  exact ⟨fun e he => h1 e (hsub e he), fun e he => h2 e (hsub e he),
    fun e he => h3 e (hsub e he)⟩

/-- Witness for C9 at the concrete pair `["C"] ⊆ ["C","H"]`. -/
theorem eligibility_subset_closed_witness : is_material_eligible ["C"] = true :=
  eligibility_subset_closed ["C", "H"] ["C"] (by decide) (by decide)

/-- C10: `is_material_eligible` accepts exactly the lists all of whose
symbols lie in the fixed 24-symbol allowed set, and its value depends only
on which symbols occur, not on order or multiplicity. -/
theorem eligibility_refines_allowed_set :
    (∀ L : List String, is_material_eligible L = true ↔
        ∀ e ∈ L, e ∈ allowed_symbols_spec)
      ∧ ∀ L L' : List String, (∀ e, e ∈ L ↔ e ∈ L') →
          is_material_eligible L = is_material_eligible L' := by
  have key : ∀ L : List String, is_material_eligible L = true ↔
      ∀ e ∈ L, e ∈ allowed_symbols_spec := by
    intro L
    rw [is_material_eligible_iff]
    constructor
    · rintro ⟨h1, h2, h3⟩ e he
      exact (mem_allowed_iff e).2 ⟨h1 e he, h2 e he, h3 e he⟩
    · intro h
      refine ⟨fun e he => ?_, fun e he => ?_, fun e he => ?_⟩ <;>
        have := (mem_allowed_iff e).1 (h e he)
      · exact this.1
      · exact this.2.1
      · exact this.2.2
  refine ⟨key, fun L L' hmem => ?_⟩
  cases hL : is_material_eligible L with
  | true =>
      exact ((key L').2 fun e he => (key L).1 hL e ((hmem e).2 he)).symm
  | false =>
      cases hL' : is_material_eligible L' with
      | true =>
          exact absurd ((key L).2 fun e he => (key L').1 hL' e ((hmem e).1 he))
            (by simp [hL])
      | false => rfl

/-- Witness for C10: the order/multiplicity-independence at the concrete
pair `["H","C","C"]` versus `["C","H"]`, and the subset characterization
at `["C","H"]`. -/
theorem eligibility_refines_allowed_set_witness :
    is_material_eligible ["H", "C", "C"] = is_material_eligible ["C", "H"]
      ∧ (is_material_eligible ["C", "H"] = true ↔
          ∀ e ∈ (["C", "H"] : List String), e ∈ allowed_symbols_spec) :=
  ⟨eligibility_refines_allowed_set.2 ["H", "C", "C"] ["C", "H"]
      (by intro e; constructor <;> (intro h; fin_cases h <;> decide)),
    eligibility_refines_allowed_set.1 ["C", "H"]⟩

/-! ## Property aggregation (`analysis_db.py`, `analyze_property_distribution`)

A database row's `data` mapping is modelled as an association list from
string keys to rationals; `getattr(row.data, name)` succeeds exactly when
the key is present. -/

/-- `getattr(row.data, property_name)`, returning `none` on
`AttributeError`/`KeyError`. -/
def lookupData (r : List (String × ℚ)) (key : String) : Option ℚ :=
  (r.find? (fun p => decide (p.1 = key))).map (fun p => p.2)

/-- Python's `min(values)` over a non-empty list (0 on the empty list,
which `analyze_property_distribution` never reaches). -/
def listMin : List ℚ → ℚ
  | [] => 0
  | v :: vs => vs.foldl min v

/-- Python's `max(values)` over a non-empty list. -/
def listMax : List ℚ → ℚ
  | [] => 0
  | v :: vs => vs.foldl max v

/-- The statistics block computed by `analyze_property_distribution`:
counters, order statistics, moments (`variance` is the square of the
`np.std` population standard deviation) and the `plt.hist` bin count. -/
structure AggResult where
  total_seen : ℕ
  present_count : ℕ
  min_val : ℚ
  max_val : ℚ
  mean_val : ℚ
  median_val : ℚ
  variance : ℚ
  bin_count : ℕ
  deriving DecidableEq, Repr

/-- The `property_values` list collected by the loop in
`analyze_property_distribution`: the values of the rows that carry the
key, in row order. -/
def property_values (rows : List (List (String × ℚ))) (key : String) : List ℚ :=
  rows.filterMap (fun r => lookupData r key)

/-- `analyze_property_distribution(db, ..., property_name, ...)`: one pass
over the rows counting `total_structures` and collecting the values of
rows that carry the key; returns `None` when no row carries it, otherwise
the statistics.  `np.median` sorts ascending and averages the two middle
values on even counts; `np.std` divides by `n`; the histogram bin count is
`min(100, max(10, int(np.sqrt(n))))` (float `sqrt` then truncation, which
matches `Nat.sqrt` on these sizes). -/
def analyze_property_distribution (rows : List (List (String × ℚ)))
    (property_name : String) : Option AggResult :=
  let total_structures := rows.length
  let vals := property_values rows property_name
  if vals.isEmpty then none
  else
    let n := vals.length
    let sorted := vals.insertionSort (fun a b => a ≤ b)
    let mean_val := vals.sum / (n : ℚ)
    some { total_seen := total_structures
           present_count := n
           min_val := listMin vals
           max_val := listMax vals
           mean_val := mean_val
           median_val :=
             if n % 2 = 1 then sorted.getD (n / 2) 0
             else (sorted.getD (n / 2 - 1) 0 + sorted.getD (n / 2) 0) / 2
           variance := ((vals.map (fun v => (v - mean_val) ^ 2)).sum) / (n : ℚ)
           bin_count := min 100 (max 10 (Nat.sqrt n)) }

/-- The Python `np.median` of a non-empty value list, as assembled inside
`analyze_property_distribution`. -/
def medianOf (vals : List ℚ) : ℚ :=
  let n := vals.length
  let sorted := vals.insertionSort (fun a b => a ≤ b)
  if n % 2 = 1 then sorted.getD (n / 2) 0
  else (sorted.getD (n / 2 - 1) 0 + sorted.getD (n / 2) 0) / 2

/-- Unfolding of `analyze_property_distribution` on a corpus where at
least one row carries the key. -/
theorem analyze_eq_some (rows : List (List (String × ℚ))) (key : String)
    (h : property_values rows key ≠ []) :
    analyze_property_distribution rows key = some
      { total_seen := rows.length
        present_count := (property_values rows key).length
        min_val := listMin (property_values rows key)
        max_val := listMax (property_values rows key)
        mean_val := (property_values rows key).sum /
          ((property_values rows key).length : ℚ)
        median_val := medianOf (property_values rows key)
        variance := (((property_values rows key).map
            (fun v => (v - (property_values rows key).sum /
              ((property_values rows key).length : ℚ)) ^ 2)).sum) /
          ((property_values rows key).length : ℚ)
        bin_count := min 100 (max 10 (Nat.sqrt (property_values rows key).length)) } := by
  rw [analyze_property_distribution, if_neg (by simpa [List.isEmpty_iff] using h)]
  rfl

/-- `analyze_property_distribution` returns `None` exactly when no row
carries the key. -/
theorem analyze_eq_none_iff (rows : List (List (String × ℚ))) (key : String) :
    analyze_property_distribution rows key = none ↔ property_values rows key = [] := by
  rw [analyze_property_distribution]
  by_cases h : (property_values rows key).isEmpty
  · simp_all [List.isEmpty_iff]
  · simp_all [List.isEmpty_iff]

/-- The number of present values equals the number of rows that carry the
key. -/
theorem property_values_length (rows : List (List (String × ℚ))) (key : String) :
    (property_values rows key).length =
      (rows.filter (fun r => (lookupData r key).isSome)).length := by
  rw [property_values]
  induction rows with
  | nil => rfl
  | cons r t ih =>
    cases h : lookupData r key <;>
      simp [List.filterMap_cons, h, List.filter_cons, ih]

/-- The `k+1` equal-spaced bin edges `np.histogram`/`plt.hist` lays over
`[lo, hi]` when given an integer bin count `k` (modelled from numpy's
documented behaviour; the repository hands `plt.hist` the value list and
`bin_count`). -/
def binEdges (k : ℕ) (lo hi : ℚ) : List ℚ :=
  (List.range (k + 1)).map (fun (i : ℕ) => lo + (i : ℚ) * (hi - lo) / (k : ℚ))

/-- The bin a value `v` falls into: half-open bins `[eᵢ, eᵢ₊₁)` except the
last, which also contains `hi` (numpy's documented rule). -/
def binIdx (k : ℕ) (lo hi : ℚ) (v : ℚ) : ℕ :=
  min (k - 1) (Int.toNat (Int.floor ((v - lo) / (hi - lo) * (k : ℚ))))

/-- Histogram bar heights for `k` bins over `[lo, hi]`. -/
def histCounts (k : ℕ) (lo hi : ℚ) (vals : List ℚ) : List ℕ :=
  (List.range k).map (fun i => (vals.filter (fun v => decide (binIdx k lo hi v = i))).length)

/-- Modelled from the spec: `round(sqrt(n))` with round-half-up, i.e. the
nearest integer `⌊√n + 1/2⌋ = ⌊(⌊√(4n)⌋ + 1)/2⌋`.  The claimed bin-count
formula uses `round`, which is not what the source computes. -/
def round_sqrt_spec (n : ℕ) : ℕ := (Nat.sqrt (4 * n) + 1) / 2

/-- C2: on the four-value corpus the aggregator reports
`present_count = 4`, `min = 1`, `max = 4`, `mean = 5/2`, `median = 5/2`
and variance `5/4` (so the standard deviation is `√1.25`); the variance
uses divisor `n = 4` (population), not the sample divisor `n - 1 = 3`. -/
theorem aggregator_round_trip :
    analyze_property_distribution
        [[("bandgap", 1)], [("bandgap", 2)], [("bandgap", 3)], [("bandgap", 4)]] "bandgap"
      = some { total_seen := 4, present_count := 4, min_val := 1, max_val := 4,
               mean_val := 5/2, median_val := 5/2, variance := 5/4, bin_count := 10 }
    ∧ Real.sqrt ((5 : ℚ) / 4) = Real.sqrt 1.25
    ∧ (((1 : ℚ) - 5/2) ^ 2 + (2 - 5/2) ^ 2 + (3 - 5/2) ^ 2 + (4 - 5/2) ^ 2) / 4 = 5/4
    ∧ (((1 : ℚ) - 5/2) ^ 2 + (2 - 5/2) ^ 2 + (3 - 5/2) ^ 2 + (4 - 5/2) ^ 2) / 3 ≠ 5/4 := by
  have hv : property_values
      [[("bandgap", (1 : ℚ))], [("bandgap", 2)], [("bandgap", 3)], [("bandgap", 4)]] "bandgap"
      = [1, 2, 3, 4] := by
    simp [property_values, lookupData, List.find?]
  refine ⟨?_, by norm_num, by norm_num, by norm_num⟩
  rw [analyze_eq_some _ _ (by rw [hv]; simp), hv]
  have hsq : Nat.sqrt 4 = 2 := (Nat.eq_sqrt.2 (by norm_num)).symm
  norm_num [listMin, listMax, medianOf, List.insertionSort, List.orderedInsert,
    min_def, max_def, hsq]

/-- C3: the aggregator reports "no rows carry this key" (the `None`
return, the spec's `UnknownProperty`) exactly when zero rows of the corpus
carry the requested key, and on success `total_seen` is the corpus size
and `present_count` the number of rows carrying the key. -/
theorem aggregator_sparsity (rows : List (List (String × ℚ))) (key : String)
    (_hne : rows ≠ []) :
    (analyze_property_distribution rows key = none ↔
        (rows.filter (fun r => (lookupData r key).isSome)).length = 0)
      ∧ ∀ res : AggResult, analyze_property_distribution rows key = some res →
          res.total_seen = rows.length ∧
          res.present_count = (rows.filter (fun r => (lookupData r key).isSome)).length := by
  constructor
  · rw [analyze_eq_none_iff, ← property_values_length, List.length_eq_zero]
  · intro res h
    have hv : property_values rows key ≠ [] := by
      intro hc
      rw [(analyze_eq_none_iff rows key).2 hc] at h
      exact Option.noConfusion h
    rw [analyze_eq_some rows key hv] at h
    cases Option.some.inj h
    exact ⟨rfl, (property_values_length rows key).symm ▸ rfl⟩

/-- The 10-row demonstration corpus of the spec: three rows carry `P`,
seven carry nothing. -/
def demoRows10 : List (List (String × ℚ)) :=
  [[("P", 1)], [("P", 2)], [("P", 3)]] ++ List.replicate 7 []

/-- Witness for C3 on the concrete 10-row corpus: `total_seen = 10`,
`present_count = 3` for `P`, and requesting the never-seen key `Q`
produces the `None` failure. -/
theorem aggregator_sparsity_witness :
    ((analyze_property_distribution demoRows10 "P").map AggResult.total_seen = some 10
      ∧ (analyze_property_distribution demoRows10 "P").map AggResult.present_count = some 3)
    ∧ analyze_property_distribution demoRows10 "Q" = none := by
  have hv : property_values demoRows10 "P" = [1, 2, 3] := by
    simp [demoRows10, property_values, lookupData, List.find?, List.filterMap_append,
      List.filterMap_replicate]
  have hsome := analyze_eq_some demoRows10 "P" (by rw [hv]; simp)
  have hcounts := (aggregator_sparsity demoRows10 "P" (by simp [demoRows10])).2 _ hsome
  constructor
  · constructor
    · rw [hsome, Option.map_some' _ AggResult.total_seen, hcounts.1]
      simp [demoRows10]
    · rw [hsome, Option.map_some' _ AggResult.present_count, hcounts.2]
      simp [demoRows10, lookupData, List.find?, List.filter_append, List.filter_replicate]
  · refine (aggregator_sparsity demoRows10 "Q" (by simp [demoRows10])).1.mpr ?_
    simp [demoRows10, lookupData, List.find?, List.filter_append, List.filter_replicate]

/-- A 120-row corpus on which the truncating and the rounding bin-count
formulas differ: `⌊√120⌋ = 10` but `round(√120) = 11`. -/
def demo120 : List (List (String × ℚ)) := List.replicate 120 [("P", 0)]

/-- C6 counterexample: with 120 present values the source uses
`int(np.sqrt(120)) = 10` bins, while the claimed formula
`max(10, min(100, round(sqrt(120))))` gives `11`. -/
theorem histogram_bin_count_round_counterexample :
    (analyze_property_distribution demo120 "P").map AggResult.bin_count = some 10
      ∧ max 10 (min 100 (round_sqrt_spec 120)) = 11 := by
  constructor
  · have hv : property_values demo120 "P" = List.replicate 120 (0 : ℚ) := by
      rw [demo120, property_values, List.filterMap_replicate]
      simp [lookupData, List.find?]
    have hsome := analyze_eq_some demo120 "P" (by rw [hv]; simp)
    rw [hsome, Option.map_some' _ AggResult.bin_count]
    have hsq : Nat.sqrt 120 = 10 := (Nat.eq_sqrt.2 (by norm_num)).symm
    simp [hv, hsq]
  · have hsq : Nat.sqrt 480 = 21 := (Nat.eq_sqrt.2 (by norm_num)).symm
    rw [round_sqrt_spec, show 4 * 120 = 480 from rfl, hsq]
    decide

/-- C6 (amended): the bin count is `min(100, max(10, ⌊√present_count⌋))`
— floor, not round — and the `k+1` bin edges are equally spaced, start at
`min`, end at `max`, and the maximum value falls in the last bin. -/
theorem histogram_binning_amended (rows : List (List (String × ℚ))) (key : String)
    (res : AggResult) (h : analyze_property_distribution rows key = some res) :
    res.bin_count = min 100 (max 10 (Nat.sqrt res.present_count))
      ∧ (binEdges res.bin_count res.min_val res.max_val).getD 0 0 = res.min_val
      ∧ (binEdges res.bin_count res.min_val res.max_val).getD res.bin_count 0 = res.max_val
      ∧ (∀ i < res.bin_count,
          (binEdges res.bin_count res.min_val res.max_val).getD (i + 1) 0
            - (binEdges res.bin_count res.min_val res.max_val).getD i 0
            = (res.max_val - res.min_val) / (res.bin_count : ℚ))
      ∧ (res.min_val < res.max_val →
          binIdx res.bin_count res.min_val res.max_val res.max_val = res.bin_count - 1) := by
  have hv : property_values rows key ≠ [] := by
    intro hc
    rw [(analyze_eq_none_iff rows key).2 hc] at h
    exact Option.noConfusion h
  rw [analyze_eq_some rows key hv] at h
  cases Option.some.inj h
  dsimp only
  set k := min 100 (max 10 (Nat.sqrt (property_values rows key).length)) with hk
  have hk1 : 1 ≤ k := le_min (by norm_num) (le_trans (by norm_num) (le_max_left 10 _))
  have hkQ : (k : ℚ) ≠ 0 := Nat.cast_ne_zero.2 (by omega)
  set lo := listMin (property_values rows key)
  set hi := listMax (property_values rows key)
  have hgetD : ∀ i : ℕ, i ≤ k →
      (binEdges k lo hi).getD i 0 = lo + (i : ℚ) * (hi - lo) / (k : ℚ) := by
    intro i hi'
    rw [binEdges, List.getD_eq_getElem?_getD, List.getElem?_map,
      List.getElem?_range (Nat.lt_succ_of_le hi')]
    rfl
  refine ⟨rfl, ?_, ?_, ?_, ?_⟩
  · rw [hgetD 0 (Nat.zero_le k)]
    simp
  · rw [hgetD k le_rfl, mul_div_cancel_left₀ _ hkQ]
    ring
  · intro i hik
    rw [hgetD (i + 1) hik, hgetD i (le_of_lt hik)]
    push_cast
    ring
  · intro hlt
    rw [binIdx, div_self (by linarith), one_mul, Int.floor_natCast, Int.toNat_natCast]
    exact min_eq_left (Nat.sub_le k 1)

/-- Witness for C6 (amended) on the two-row corpus with values `0` and
`2`: ten bins over `[0, 2]`, each of width `1/5`, and the value `2` lands
in bin `9`. -/
theorem histogram_binning_amended_witness :
    ((10 : ℕ) = min 100 (max 10 (Nat.sqrt 2))
        ∧ (binEdges 10 0 2).getD 0 0 = 0
        ∧ (binEdges 10 0 2).getD 10 0 = 2
        ∧ (∀ i < 10, (binEdges 10 0 2).getD (i + 1) 0 - (binEdges 10 0 2).getD i 0
            = ((2 : ℚ) - 0) / (10 : ℚ))
        ∧ ((0 : ℚ) < 2 → binIdx 10 0 2 2 = 9))
      ∧ analyze_property_distribution [[("P", 0)], [("P", 2)]] "P"
          = some { total_seen := 2, present_count := 2, min_val := 0, max_val := 2,
                   mean_val := 1, median_val := 1, variance := 1, bin_count := 10 } := by
  have hv : property_values [[("P", (0 : ℚ))], [("P", 2)]] "P" = [0, 2] := by
    simp [property_values, lookupData, List.find?]
  have hsq : Nat.sqrt 2 = 1 := (Nat.eq_sqrt.2 (by norm_num)).symm
  have hres : analyze_property_distribution [[("P", (0 : ℚ))], [("P", 2)]] "P"
      = some { total_seen := 2, present_count := 2, min_val := 0, max_val := 2,
               mean_val := 1, median_val := 1, variance := 1, bin_count := 10 } := by
    rw [analyze_eq_some _ _ (by rw [hv]; simp), hv]
    norm_num [listMin, listMax, medianOf, List.insertionSort, List.orderedInsert,
      min_def, max_def, hsq]
  have h := histogram_binning_amended [[("P", 0)], [("P", 2)]] "P" _ hres
  exact ⟨by simpa [hsq] using h, hres⟩

/-! ## Element census (`analysis_db.py`, `element_analysis`) -/

/-- `ase.data.chemical_symbols`: the placeholder `X` followed by the 118
element symbols in atomic-number order.  `element_analysis` initializes
its count dictionary from `chemical_symbols[1:]`. -/
def chemical_symbols : List String :=
  ["X", "H", "He", "Li", "Be", "B", "C", "N", "O", "F", "Ne",
   "Na", "Mg", "Al", "Si", "P", "S", "Cl", "Ar", "K", "Ca",
   "Sc", "Ti", "V", "Cr", "Mn", "Fe", "Co", "Ni", "Cu", "Zn",
   "Ga", "Ge", "As", "Se", "Br", "Kr", "Rb", "Sr", "Y", "Zr",
   "Nb", "Mo", "Tc", "Ru", "Rh", "Pd", "Ag", "Cd", "In", "Sn",
   "Sb", "Te", "I", "Xe", "Cs", "Ba", "La", "Ce", "Pr", "Nd",
   "Pm", "Sm", "Eu", "Gd", "Tb", "Dy", "Ho", "Er", "Tm", "Yb",
   "Lu", "Hf", "Ta", "W", "Re", "Os", "Ir", "Pt", "Au", "Hg",
   "Tl", "Pb", "Bi", "Po", "At", "Rn", "Fr", "Ra", "Ac", "Th",
   "Pa", "U", "Np", "Pu", "Am", "Cm", "Bk", "Cf", "Es", "Fm",
   "Md", "No", "Lr", "Rf", "Db", "Sg", "Bh", "Hs", "Mt", "Ds",
   "Rg", "Cn", "Nh", "Fl", "Mc", "Lv", "Ts", "Og"]

/-- `element_counts = {symbol: 0 for symbol in chemical_symbols[1:]}`,
as an association list in insertion (atomic-number) order — the order
CPython dictionaries preserve. -/
def element_counts_init : List (String × ℕ) :=
  (chemical_symbols.drop 1).map (fun s => (s, 0))

/-- `if element in element_counts: element_counts[element] += 1`:
increment the entry for `e` when the key exists, otherwise leave the
mapping unchanged. -/
def bumpCount (m : List (String × ℕ)) (e : String) : List (String × ℕ) :=
  if (m.find? (fun p => decide (p.1 = e))).isSome then
    m.map (fun p => if p.1 = e then (p.1, p.2 + 1) else p)
  else m

/-- The scan loop of `element_analysis`: for each structure, one bump per
distinct element of its atom list. -/
def element_counts_raw (records : List (List String)) : List (String × ℕ) :=
  records.foldl (fun m atoms => atoms.dedup.foldl bumpCount m) element_counts_init

/-- `{k: v for k, v in element_counts.items() if v > 0}`. -/
def element_counts (records : List (List String)) : List (String × ℕ) :=
  (element_counts_raw records).filter (fun p => decide (0 < p.2))

/-- `sorted(element_counts.items(), key=lambda x: x[1], reverse=True)`:
Python's sort is stable, and `reverse=True` keeps equal-key elements in
their original (insertion) order, so this is a stable merge sort by count
descending. -/
def sorted_elements (records : List (List String)) : List (String × ℕ) :=
  (element_counts records).mergeSort (fun p q => decide (q.2 ≤ p.2))

/-- The mapping has an entry whose key is `E`. -/
def HasKey (m : List (String × ℕ)) (E : String) : Prop := ∃ p ∈ m, p.1 = E

/-- Every entry of the mapping keyed by `E` carries the value `c`. -/
def AllVal (m : List (String × ℕ)) (E : String) (c : ℕ) : Prop :=
  ∀ p ∈ m, p.1 = E → p.2 = c

theorem fst_bump_entry (e : String) (p : String × ℕ) :
    ((if p.1 = e then (p.1, p.2 + 1) else p) : String × ℕ).1 = p.1 := by
  split <;> rfl

theorem hasKey_bumpCount (m : List (String × ℕ)) (e E : String) :
    HasKey (bumpCount m e) E ↔ HasKey m E := by
  rw [bumpCount]
  split
  · simp only [HasKey, List.mem_map]
    constructor
    · rintro ⟨p1, ⟨p, hp, rfl⟩, hE⟩
      exact ⟨p, hp, (fst_bump_entry e p) ▸ hE⟩
    · rintro ⟨p, hp, hE⟩
      exact ⟨_, ⟨p, hp, rfl⟩, (fst_bump_entry e p).trans hE⟩
  · exact Iff.rfl

theorem allVal_bumpCount_ne (m : List (String × ℕ)) (e E : String) (c : ℕ)
    (hne : E ≠ e) (h : AllVal m E c) : AllVal (bumpCount m e) E c := by
  rw [bumpCount]
  split
  · rintro p1 hp1 hkey
    obtain ⟨q, hq, rfl⟩ := List.mem_map.1 hp1
    rw [fst_bump_entry] at hkey
    rw [if_neg (by rw [hkey]; exact hne)]
    exact h q hq hkey
  · exact h

theorem allVal_bumpCount_eq (m : List (String × ℕ)) (E : String) (c : ℕ)
    (hk : HasKey m E) (h : AllVal m E c) : AllVal (bumpCount m E) E (c + 1) := by
  obtain ⟨w, hw, hwkey⟩ := hk
  rw [bumpCount, if_pos (List.find?_isSome.2 ⟨w, hw, by simp [hwkey]⟩)]
  rintro p1 hp1 hkey
  obtain ⟨q, hq, rfl⟩ := List.mem_map.1 hp1
  rw [fst_bump_entry] at hkey
  rw [if_pos hkey]
  exact congrArg (· + 1) (h q hq hkey)

theorem hasKey_foldl_bump (l : List String) (m : List (String × ℕ)) (E : String) :
    HasKey (l.foldl bumpCount m) E ↔ HasKey m E := by
  induction l generalizing m with
  | nil => exact Iff.rfl
  | cons a t ih => rw [List.foldl_cons, ih, hasKey_bumpCount]

theorem allVal_foldl_bump_not_mem (l : List String) (m : List (String × ℕ))
    (E : String) (c : ℕ) (hE : E ∉ l) (h : AllVal m E c) :
    AllVal (l.foldl bumpCount m) E c := by
  induction l generalizing m with
  | nil => exact h
  | cons a t ih =>
    rw [List.foldl_cons]
    exact ih _ (fun hmem => hE (List.mem_cons_of_mem a hmem))
      (allVal_bumpCount_ne m a E c (fun he => hE (he ▸ List.mem_cons_self a t)) h)

theorem allVal_foldl_bump_mem (l : List String) (m : List (String × ℕ))
    (E : String) (c : ℕ) (hnd : l.Nodup) (hE : E ∈ l) (hk : HasKey m E)
    (h : AllVal m E c) : AllVal (l.foldl bumpCount m) E (c + 1) := by
  induction l generalizing m c with
  | nil => cases hE
  | cons a t ih =>
    rw [List.foldl_cons]
    rcases List.mem_cons.1 hE with rfl | hEt
    · exact allVal_foldl_bump_not_mem t _ E (c + 1) (List.Nodup.not_mem hnd)
        (allVal_bumpCount_eq m E c hk h)
    · have hne : E ≠ a := fun he => (List.Nodup.not_mem hnd) (he ▸ hEt)
      exact ih _ c (List.Nodup.of_cons hnd) hEt ((hasKey_bumpCount m a E).2 hk)
        (allVal_bumpCount_ne m a E c hne h)

theorem hasKey_census_fold (records : List (List String)) (m : List (String × ℕ))
    (E : String) :
    HasKey (records.foldl (fun m atoms => atoms.dedup.foldl bumpCount m) m) E ↔
      HasKey m E := by
  induction records generalizing m with
  | nil => exact Iff.rfl
  | cons r t ih => rw [List.foldl_cons, ih, hasKey_foldl_bump]

theorem allVal_census_fold (records : List (List String)) (m : List (String × ℕ))
    (E : String) (c : ℕ) (hk : HasKey m E) (h : AllVal m E c) :
    AllVal (records.foldl (fun m atoms => atoms.dedup.foldl bumpCount m) m) E
      (c + (records.filter (fun r => decide (E ∈ r))).length) := by
  induction records generalizing m c with
  | nil => exact h
  | cons r t ih =>
    rw [List.foldl_cons, List.filter_cons]
    by_cases hEr : E ∈ r
    · rw [if_pos (by simpa using hEr)]
      have h' := allVal_foldl_bump_mem r.dedup m E c (List.nodup_dedup r)
        (List.mem_dedup.2 hEr) hk h
      have := ih _ (c + 1) ((hasKey_foldl_bump r.dedup m E).2 hk) h'
      simpa [Nat.add_comm, Nat.add_assoc, Nat.add_left_comm] using this
    · rw [if_neg (by simpa using hEr)]
      exact ih _ c ((hasKey_foldl_bump r.dedup m E).2 hk)
        (allVal_foldl_bump_not_mem r.dedup m E c
          (fun hmem => hEr (List.mem_dedup.1 hmem)) h)

theorem hasKey_init (E : String) :
    HasKey element_counts_init E ↔ E ∈ chemical_symbols.drop 1 := by
  constructor
  · rintro ⟨p, hp, hkey⟩
    obtain ⟨s, hs, rfl⟩ := List.mem_map.1 hp
    exact hkey ▸ hs
  · intro h
    exact ⟨(E, 0), List.mem_map.2 ⟨E, h, rfl⟩, rfl⟩

theorem allVal_init (E : String) : AllVal element_counts_init E 0 := by
  rintro p hp -
  obtain ⟨s, _, rfl⟩ := List.mem_map.1 hp
  rfl

/-- C7: for every corpus whose atom symbols are recognized element
symbols, the census maps a symbol `E` to the number of distinct records
whose atom list contains `E` (independent of how many atoms of `E` a
record has), and it has an entry for `E` exactly when that number is
positive. -/
theorem element_census_structure_presence (records : List (List String))
    (hrec : ∀ r ∈ records, ∀ e ∈ r, e ∈ chemical_symbols.drop 1) (E : String) :
    ((element_counts records).find? (fun p => decide (p.1 = E))).map (fun p => p.2)
      = if 0 < (records.filter (fun r => decide (E ∈ r))).length
        then some ((records.filter (fun r => decide (E ∈ r))).length)
        else none := by
  by_cases hchem : E ∈ chemical_symbols.drop 1
  · have hk : HasKey (element_counts_raw records) E :=
      (hasKey_census_fold records element_counts_init E).2 ((hasKey_init E).2 hchem)
    have hall : AllVal (element_counts_raw records) E
        ((records.filter (fun r => decide (E ∈ r))).length) := by
      have := allVal_census_fold records element_counts_init E 0
        ((hasKey_init E).2 hchem) (allVal_init E)
      simpa using this
    by_cases hpos : 0 < (records.filter (fun r => decide (E ∈ r))).length
    · rw [if_pos hpos]
      obtain ⟨p, hpmem, hpkey⟩ := hk
      have hpfilt : p ∈ element_counts records :=
        List.mem_filter.2 ⟨hpmem, by simp [hall p hpmem hpkey, hpos]⟩
      have hsome : ((element_counts records).find? (fun q => decide (q.1 = E))).isSome :=
        List.find?_isSome.2 ⟨p, hpfilt, by simp [hpkey]⟩
      obtain ⟨q, hq⟩ := Option.isSome_iff_exists.1 hsome
      have hqkey : q.1 = E := by simpa using List.find?_some hq
      have hqraw : q ∈ element_counts_raw records :=
        (List.mem_filter.1 (List.mem_of_find?_eq_some hq)).1
      rw [hq, Option.map_some', hall q hqraw hqkey]
    · rw [if_neg hpos]
      have hnone : (element_counts records).find? (fun q => decide (q.1 = E)) = none := by
        rw [List.find?_eq_none]
        intro q hqmem
        simp only [decide_eq_true_eq]
        intro hqkey
        obtain ⟨hqraw, hqpos⟩ := List.mem_filter.1 hqmem
        rw [hall q hqraw hqkey] at hqpos
        exact hpos (by simpa using hqpos)
      rw [hnone]
      rfl
  · have hcnt : records.filter (fun r => decide (E ∈ r)) = [] := by
      rw [List.filter_eq_nil_iff]
      intro r hr
      simp only [decide_eq_true_eq]
      exact fun hEr => hchem (hrec r hr E hEr)
    have hnk : ¬ HasKey (element_counts_raw records) E := by
      rw [element_counts_raw, hasKey_census_fold, hasKey_init]
      exact hchem
    have hnone : (element_counts records).find? (fun q => decide (q.1 = E)) = none := by
      rw [List.find?_eq_none]
      intro q hqmem
      simp only [decide_eq_true_eq]
      intro hqkey
      exact hnk ⟨q, (List.mem_filter.1 hqmem).1, hqkey⟩
    rw [hnone, hcnt]
    rfl

/-- Witness for C7: in the corpus with a three-carbon structure and a
carbon–oxygen structure, carbon is counted twice (once per structure, not
per atom), and the absent symbol `U` has no entry. -/
theorem element_census_structure_presence_witness :
    ((element_counts [["C", "C", "H"], ["C", "O"]]).find?
        (fun p => decide (p.1 = "C"))).map (fun p => p.2) = some 2
      ∧ ((element_counts [["C", "C", "H"], ["C", "O"]]).find?
          (fun p => decide (p.1 = "U"))).map (fun p => p.2) = none := by
  have hrec : ∀ r ∈ [["C", "C", "H"], ["C", "O"]], ∀ e ∈ r,
      e ∈ chemical_symbols.drop 1 := by
    set_option maxRecDepth 4000 in decide
  constructor
  · rw [element_census_structure_presence [["C", "C", "H"], ["C", "O"]] hrec "C"]
    set_option maxRecDepth 4000 in decide
  · rw [element_census_structure_presence [["C", "C", "H"], ["C", "O"]] hrec "U"]
    decide

unseal List.merge List.mergeSort in
/-- C8 counterexample: `Be` and `B` both occur in exactly one structure;
the report lists `Be` before `B` (their insertion order, by atomic
number), while the claimed alphabetical tie-break would put `B` first —
so the output is not ordered by (count descending, symbol ascending). -/
theorem census_order_alphabetical_counterexample :
    sorted_elements [["Be"], ["B"]] = [("Be", 1), ("B", 1)]
      ∧ ¬ List.Pairwise
          (fun p q : String × ℕ => q.2 < p.2 ∨ (p.2 = q.2 ∧ p.1 < q.1))
          (sorted_elements [["Be"], ["B"]]) := by
  have h : element_counts [["Be"], ["B"]] = [("Be", 1), ("B", 1)] := by
    set_option maxRecDepth 4000 in decide
  have hs : sorted_elements [["Be"], ["B"]] = [("Be", 1), ("B", 1)] := by
    rw [sorted_elements, h]
    rfl
  refine ⟨hs, ?_⟩
  rw [hs]
  intro hp
  have hrel := (List.pairwise_cons.1 hp).1 ("B", 1) (List.mem_singleton.2 rfl)
  rcases hrel with hlt | ⟨-, hstr⟩
  · omega
  · rw [String.lt_iff_toList_lt, show ("Be" : String).toList = ['B', 'e'] from by decide,
      show ("B" : String).toList = ['B'] from by decide] at hstr
    cases hstr with
    | cons h9 => cases h9
    | rel h9 => exact absurd h9 (by decide)

/-- C8 (amended): the report is sorted by count descending, it is a
permutation of the positive-count census entries, and elements of equal
count keep their census (atomic-number insertion) order — Python's stable
`sorted(..., reverse=True)` does not re-order ties alphabetically. -/
theorem census_report_order_amended (records : List (List String)) :
    List.Pairwise (fun p q : String × ℕ => q.2 ≤ p.2) (sorted_elements records)
      ∧ (sorted_elements records).Perm (element_counts records)
      ∧ ∀ c : ℕ, (sorted_elements records).filter (fun p => decide (p.2 = c))
          = (element_counts records).filter (fun p => decide (p.2 = c)) := by
  have htrans : ∀ a b c : String × ℕ,
      (fun p q : String × ℕ => decide (q.2 ≤ p.2)) a b = true →
      (fun p q : String × ℕ => decide (q.2 ≤ p.2)) b c = true →
      (fun p q : String × ℕ => decide (q.2 ≤ p.2)) a c = true := by
    intro a b c h1 h2
    simp_all
    omega
  have htotal : ∀ a b : String × ℕ,
      ((fun p q : String × ℕ => decide (q.2 ≤ p.2)) a b
        || (fun p q : String × ℕ => decide (q.2 ≤ p.2)) b a) = true := by
    intro a b
    simp [Bool.or_eq_true]
    omega
  refine ⟨?_, List.mergeSort_perm _ _, ?_⟩
  · exact (List.sorted_mergeSort htrans htotal (element_counts records)).imp
      (fun h => by simpa using h)
  · intro c
    have hperm : (sorted_elements records).Perm (element_counts records) :=
      List.mergeSort_perm _ _
    have hpair : List.Pairwise
        (fun a b : String × ℕ => (fun p q : String × ℕ => decide (q.2 ≤ p.2)) a b = true)
        ((element_counts records).filter (fun p => decide (p.2 = c))) := by
      refine List.pairwise_of_forall_mem_list ?_
      intro a ha b hb
      have ha2 : a.2 = c := by simpa using (List.mem_filter.1 ha).2
      have hb2 : b.2 = c := by simpa using (List.mem_filter.1 hb).2
      simp [ha2, hb2]
    have hsubl : ((element_counts records).filter (fun p => decide (p.2 = c))).Sublist
        (sorted_elements records) :=
      List.sublist_mergeSort htrans htotal hpair (List.filter_sublist _)
    have hsub2 : ((element_counts records).filter (fun p => decide (p.2 = c))).Sublist
        ((sorted_elements records).filter (fun p => decide (p.2 = c))) := by
      have := hsubl.filter (fun p => decide (p.2 = c))
      rwa [List.filter_eq_self.2 (fun a ha => (List.mem_filter.1 ha).2)] at this
    exact (hsub2.eq_of_length ((hperm.filter _).length_eq).symm).symm

/-! ## Ingestion of one raw record (`readout_json.py`)

One line of `db.json` is a nested dictionary; every field access in the
source goes through `dict.get` with a default, so each field is modelled
as an `Option`.  Python floats are rationals as before. -/

/-- One entry of a site's `species` list; `species[0].get('element', '')`. -/
structure RawSpecies where
  element : Option String
  deriving DecidableEq, Repr

/-- One entry of `structure['sites']`: `site.get('xyz', [0,0,0])` and
`site.get('species', [])`. -/
structure RawSite where
  xyz : Option (ℚ × ℚ × ℚ)
  species : Option (List RawSpecies)
  deriving DecidableEq, Repr

/-- `structure.get('lattice', {})` with its `matrix` key. -/
structure RawLattice where
  matrix : Option (List (List ℚ))
  deriving DecidableEq, Repr

/-- `material.get('structure', {})`. -/
structure RawStructure where
  lattice : Option RawLattice
  sites : Option (List RawSite)
  deriving DecidableEq, Repr

/-- `material['thermo']`: the four energy keys read with
`thermo.get(..., None)`. -/
structure RawThermo where
  energy : Option ℚ
  energy_per_atom : Option ℚ
  energy_vdw : Option ℚ
  energy_vdw_per_atom : Option ℚ
  deriving DecidableEq, Repr

/-- One raw material record of `db.json`, with every key optional. -/
structure RawMaterial where
  material_id : Option String
  formula_pretty : Option String
  formula_reduced_abc : Option String
  formula_anonymous : Option String
  nelements : Option ℤ
  elements : Option (List String)
  chemsys : Option String
  sg_number : Option ℤ
  sg_symbol : Option String
  source_id : Option String
  creation_task_label : Option String
  discovery_process : Option String
  structure_ : Option RawStructure
  thermo : Option RawThermo
  bandgap : Option ℚ
  total_magnetization : Option ℚ
  decomposition_energy : Option ℚ
  exfoliation_energy_per_atom : Option ℚ
  deriving DecidableEq, Repr

/-- A Python value stored in the `key_value` dict: string, int, float,
list-of-strings, or `None`. -/
inductive KV where
  | s (v : String)
  | z (v : ℤ)
  | q (v : ℚ)
  | strs (v : List String)
  | null
  deriving DecidableEq, Repr

/-- `thermo.get(k, None)`: a float when present, Python `None` when not. -/
def optQ : Option ℚ → KV
  | some v => KV.q v
  | none => KV.null

/-- The `key_value` dict assembled for one material (lines 57–93 of
`readout_json.py`), in insertion order: twelve always-present metadata
keys, then the four thermo keys (only when `'thermo' in material`, each
defaulting to `None`), then the four conditional scalar keys (only when
present in the raw record). -/
def key_value (m : RawMaterial) : List (String × KV) :=
  [("material_id", KV.s (m.material_id.getD "")),
   ("formula_pretty", KV.s (m.formula_pretty.getD "")),
   ("formula_reduced_abc", KV.s (m.formula_reduced_abc.getD "")),
   ("formula_anonymous", KV.s (m.formula_anonymous.getD "")),
   ("nelements", KV.z (m.nelements.getD 0)),
   ("elements", KV.strs (m.elements.getD [])),
   ("chemsys", KV.s (m.chemsys.getD "")),
   ("sg_number", KV.z (m.sg_number.getD 0)),
   ("sg_symbol", KV.s (m.sg_symbol.getD "")),
   ("source_id", KV.s (m.source_id.getD "")),
   ("creation_task_label", KV.s (m.creation_task_label.getD "")),
   ("discovery_process", KV.s (m.discovery_process.getD ""))]
  ++ (match m.thermo with
      | some t =>
        [("energy", optQ t.energy),
         ("energy_per_atom", optQ t.energy_per_atom),
         ("energy_vdw", optQ t.energy_vdw),
         ("energy_vdw_per_atom", optQ t.energy_vdw_per_atom)]
      | none => [])
  ++ (match m.bandgap with | some v => [("bandgap", KV.q v)] | none => [])
  ++ (match m.total_magnetization with
      | some v => [("total_magnetization", KV.q v)] | none => [])
  ++ (match m.decomposition_energy with
      | some v => [("decomposition_energy", KV.q v)] | none => [])
  ++ (match m.exfoliation_energy_per_atom with
      | some v => [("exfoliation_energy_per_atom", KV.q v)] | none => [])

/-- `structure.get('sites', [])` after `material.get('structure', {})`. -/
def sitesOf (m : RawMaterial) : List RawSite :=
  (m.structure_.getD ⟨none, none⟩).sites.getD []

/-- `lattice.get('matrix', [[0,0,0],[0,0,0],[0,0,0]])`. -/
def cellOf (m : RawMaterial) : List (List ℚ) :=
  ((m.structure_.getD ⟨none, none⟩).lattice.getD ⟨none⟩).matrix.getD
    [[0, 0, 0], [0, 0, 0], [0, 0, 0]]

/-- The position appended for a site: `site.get('xyz', [0,0,0])`. -/
def positionsOf (m : RawMaterial) : List (ℚ × ℚ × ℚ) :=
  (sitesOf m).map (fun site => site.xyz.getD (0, 0, 0))

/-- The symbol appended for a site, if any: appended only when the
`species` list is non-empty, and then `species[0].get('element', '')`. -/
def siteSymbol (site : RawSite) : Option String :=
  match site.species.getD [] with
  | [] => none
  | sp :: _ => some (sp.element.getD "")

/-- The `symbols` list accumulated by the site loop. -/
def symbolsOf (m : RawMaterial) : List String :=
  (sitesOf m).filterMap siteSymbol

/-- A symbol ASE's `Atoms` constructor accepts: a key of
`ase.data.atomic_numbers`, i.e. a member of `chemical_symbols`
(including the placeholder `X`). -/
def isChemicalSymbol (s : String) : Bool := decide (s ∈ chemical_symbols)

/-- The ingestion failure: ASE raises (the spec's `MalformedRecord`)
while building the `Atoms` object. -/
inductive IngestError where
  | malformed
  deriving DecidableEq, Repr

/-- The `Atoms` object written to the database. -/
structure AtomsObj where
  symbols : List String
  positions : List (ℚ × ℚ × ℚ)
  cell : List (List ℚ)
  pbc : Bool × Bool × Bool
  deriving DecidableEq, Repr

/-- Modelled from ASE's documented `Atoms` constructor behaviour (the
constructor is library code, not part of this repository): it rejects a
`positions` array whose length differs from the number of symbols and any
symbol that is not a recognized chemical symbol; otherwise it builds the
object with `pbc=[True, True, True]` as passed by the source. -/
def mkAtoms (symbols : List String) (positions : List (ℚ × ℚ × ℚ))
    (cell : List (List ℚ)) : Except IngestError AtomsObj :=
  if symbols.length ≠ positions.length then Except.error IngestError.malformed
  else if symbols.any (fun s => ! isChemicalSymbol s) then Except.error IngestError.malformed
  else Except.ok ⟨symbols, positions, cell, (true, true, true)⟩

/-- The record written for one material: the atoms object plus the
`key_value` data mapping. -/
structure StructureRecord where
  atoms : AtomsObj
  data : List (String × KV)
  deriving DecidableEq, Repr

/-- Ingestion of one raw material (the body of the conversion loop of
`readout_json.py`): extract cell, positions and symbols, build the atoms
object, and pair it with the metadata; `db.write` happens only after the
`Atoms` constructor succeeds, so a failing record writes nothing. -/
def ingest (m : RawMaterial) : Except IngestError StructureRecord :=
  match mkAtoms (symbolsOf m) (positionsOf m) (cellOf m) with
  | Except.error e => Except.error e
  | Except.ok a => Except.ok ⟨a, key_value m⟩

theorem length_filterMap_isSome {α β : Type _} (f : α → Option β) (l : List α) :
    (l.filterMap f).length = (l.filter (fun a => (f a).isSome)).length := by
  induction l with
  | nil => rfl
  | cons a t ih =>
    cases h : f a <;> simp [List.filterMap_cons, h, List.filter_cons, ih]

theorem mkAtoms_isOk_false_iff (symbols : List String) (positions : List (ℚ × ℚ × ℚ))
    (cell : List (List ℚ)) :
    (mkAtoms symbols positions cell).isOk = false ↔
      (symbols.length ≠ positions.length
        ∨ symbols.any (fun s => ! isChemicalSymbol s) = true) := by
  rw [mkAtoms]
  split_ifs with h1 h2
  · simp [Except.isOk, Except.toBool, h1]
  · simp [Except.isOk, Except.toBool, h2]
  · simp [Except.isOk, Except.toBool, h1, h2]

theorem ingest_isOk_eq (m : RawMaterial) :
    (ingest m).isOk = (mkAtoms (symbolsOf m) (positionsOf m) (cellOf m)).isOk := by
  rw [ingest]
  rcases h : mkAtoms (symbolsOf m) (positionsOf m) (cellOf m) with e | a <;> rfl

theorem siteSymbol_isSome_iff (site : RawSite) :
    (siteSymbol site).isSome = true ↔ site.species.getD [] ≠ [] := by
  rw [siteSymbol]
  rcases h : site.species.getD [] with - | ⟨sp, rest⟩ <;> simp [h]

theorem siteSymbol_eq_some_iff (site : RawSite) (s : String) :
    siteSymbol site = some s ↔
      ∃ sp rest, site.species.getD [] = sp :: rest ∧ s = sp.element.getD "" := by
  rw [siteSymbol]
  rcases h : site.species.getD [] with - | ⟨sp, rest⟩
  · simp [h]
  · simp only [h, Option.some.injEq, List.cons.injEq]
    constructor
    · rintro rfl
      exact ⟨sp, rest, ⟨rfl, rfl⟩, rfl⟩
    · rintro ⟨sp1, rest1, ⟨rfl, rfl⟩, rfl⟩
      rfl

theorem ingest_isOk_false_iff (m : RawMaterial) :
    (ingest m).isOk = false ↔
      ((∃ site ∈ sitesOf m, site.species.getD [] = [])
        ∨ ∃ site ∈ sitesOf m, ∃ sp rest, site.species.getD [] = sp :: rest
            ∧ isChemicalSymbol (sp.element.getD "") = false) := by
  rw [ingest_isOk_eq, mkAtoms_isOk_false_iff]
  apply or_congr
  · rw [symbolsOf, length_filterMap_isSome, positionsOf, List.length_map]
    constructor
    · intro hne
      by_contra hno
      push_neg at hno
      exact hne (List.filter_length_eq_length.2
        (fun a ha => (siteSymbol_isSome_iff a).2 (hno a ha)))
    · rintro ⟨site, hmem, hempty⟩ heq
      exact (siteSymbol_isSome_iff site).1 (List.filter_length_eq_length.1 heq site hmem)
        hempty
  · rw [List.any_eq_true]
    constructor
    · rintro ⟨s, hs, hbad⟩
      obtain ⟨site, hsite, hsym⟩ := List.mem_filterMap.1 hs
      obtain ⟨sp, rest, hspecies, rfl⟩ := (siteSymbol_eq_some_iff site s).1 hsym
      exact ⟨site, hsite, sp, rest, hspecies, by simpa using hbad⟩
    · rintro ⟨site, hsite, sp, rest, hspecies, hbad⟩
      refine ⟨sp.element.getD "", List.mem_filterMap.2 ⟨site, hsite, ?_⟩, by simp [hbad]⟩
      rw [siteSymbol_eq_some_iff]
      exact ⟨sp, rest, hspecies, rfl⟩

/-- The raw material with every key absent. -/
def emptyRawMaterial : RawMaterial :=
  ⟨none, none, none, none, none, none, none, none, none,
   none, none, none, none, none, none, none, none, none⟩

/-- A raw material whose single site has a species but no `xyz`. -/
def siteNoXyzMaterial : RawMaterial :=
  { emptyRawMaterial with
    structure_ := some ⟨none, some [⟨none, some [⟨some "C"⟩]⟩]⟩ }

/-- C4 counterexample: a record with no atom-site list ingests
successfully as an empty structure (the claim requires `MalformedRecord`),
and a site without a position ingests with the default position
`(0,0,0)` instead of failing. -/
theorem ingestion_empty_sites_counterexample :
    sitesOf emptyRawMaterial = [] ∧ (ingest emptyRawMaterial).isOk = true
      ∧ (ingest siteNoXyzMaterial).isOk = true
      ∧ positionsOf siteNoXyzMaterial = [(0, 0, 0)] :=
  ⟨rfl, rfl, rfl, rfl⟩

/-- C4 (amended): ingestion of one raw record returns a complete record
or the failure, atomically; it fails exactly when some site's `species`
list is absent or empty (symbol/position length mismatch) or some site's
resolved element symbol is not a recognized chemical symbol (e.g. a
missing `element` key resolving to `""`); an absent or empty site list
and missing positions are not errors. -/
theorem ingestion_failure_characterization (m : RawMaterial) :
    ((ingest m).isOk = false ↔
        ((∃ site ∈ sitesOf m, site.species.getD [] = [])
          ∨ ∃ site ∈ sitesOf m, ∃ sp rest, site.species.getD [] = sp :: rest
              ∧ isChemicalSymbol (sp.element.getD "") = false))
      ∧ ∀ rec : StructureRecord, ingest m = Except.ok rec →
          rec.atoms.symbols = symbolsOf m ∧ rec.atoms.positions = positionsOf m
            ∧ rec.atoms.cell = cellOf m ∧ rec.data = key_value m := by
  refine ⟨ingest_isOk_false_iff m, ?_⟩
  intro rec h
  rw [ingest] at h
  rcases hA : mkAtoms (symbolsOf m) (positionsOf m) (cellOf m) with e | a
  · rw [hA] at h
    exact Except.noConfusion h
  · rw [hA] at h
    rw [mkAtoms] at hA
    split_ifs at hA
    cases Except.ok.inj hA
    cases Except.ok.inj h
    exact ⟨rfl, rfl, rfl, rfl⟩

/-- The raw material for the C4 witness: one site with species `C` and an
explicit position. -/
def demoRawC : RawMaterial :=
  { emptyRawMaterial with
    structure_ := some ⟨none, some [⟨some (1, 2, 3), some [⟨some "C"⟩]⟩]⟩ }

/-- The record `demoRawC` ingests to. -/
def demoRecC : StructureRecord :=
  ⟨⟨["C"], [(1, 2, 3)], [[0, 0, 0], [0, 0, 0], [0, 0, 0]], (true, true, true)⟩,
   key_value demoRawC⟩

/-- Witness for C4 (amended) at the concrete one-site record. -/
theorem ingestion_failure_characterization_witness :
    demoRecC.atoms.symbols = symbolsOf demoRawC
      ∧ demoRecC.atoms.positions = positionsOf demoRawC
      ∧ demoRecC.atoms.cell = cellOf demoRawC
      ∧ demoRecC.data = key_value demoRawC :=
  (ingestion_failure_characterization demoRawC).2 demoRecC (by rfl)

/-- A raw material carrying a `thermo` block that itself has no energy
keys. -/
def thermoOnlyRaw : RawMaterial :=
  { emptyRawMaterial with thermo := some ⟨none, none, none, none⟩ }

/-- C5 counterexample: when the raw record has a `thermo` block without
an `energy` key, the output mapping still contains the key `energy`, with
value `None` — the key is not omitted as the claim requires. -/
theorem properties_null_energy_counterexample :
    ("energy", KV.null) ∈ key_value thermoOnlyRaw
      ∧ thermoOnlyRaw.thermo.bind RawThermo.energy = none := by
  constructor
  · simp [key_value, thermoOnlyRaw, emptyRawMaterial, optQ]
  · rfl

/-- C5 (amended): `bandgap`, `total_magnetization`,
`decomposition_energy` and `exfoliation_energy_per_atom` appear in the
output mapping exactly when present in the raw record (with their values
passed through); `energy` and `energy_per_atom` appear exactly when the
raw record has a `thermo` block, with value `None` when the block lacks
them. -/
theorem properties_passthrough_amended (m : RawMaterial) :
    ("bandgap" ∈ (key_value m).map Prod.fst ↔ m.bandgap.isSome = true)
      ∧ ("total_magnetization" ∈ (key_value m).map Prod.fst ↔
          m.total_magnetization.isSome = true)
      ∧ ("decomposition_energy" ∈ (key_value m).map Prod.fst ↔
          m.decomposition_energy.isSome = true)
      ∧ ("exfoliation_energy_per_atom" ∈ (key_value m).map Prod.fst ↔
          m.exfoliation_energy_per_atom.isSome = true)
      ∧ ("energy" ∈ (key_value m).map Prod.fst ↔ m.thermo.isSome = true)
      ∧ ("energy_per_atom" ∈ (key_value m).map Prod.fst ↔ m.thermo.isSome = true)
      ∧ (∀ v, m.bandgap = some v → ("bandgap", KV.q v) ∈ key_value m)
      ∧ (∀ t, m.thermo = some t → ("energy", optQ t.energy) ∈ key_value m) := by
  rcases hth : m.thermo with - | t <;> rcases hbg : m.bandgap with - | bv <;>
    rcases htm : m.total_magnetization with - | tv <;>
    rcases hde : m.decomposition_energy with - | dv <;>
    rcases hex : m.exfoliation_energy_per_atom with - | ev <;>
    simp [key_value, hth, hbg, htm, hde, hex]

/-- The raw material for the C5 witness: a bandgap and a `thermo` block
with only `energy`. -/
def demoRawProps : RawMaterial :=
  { emptyRawMaterial with
    thermo := some ⟨some 5, none, none, none⟩
    bandgap := some (3 / 2) }

/-- Witness for C5 (amended) at a record carrying `bandgap = 3/2` and
`thermo.energy = 5`. -/
theorem properties_passthrough_amended_witness :
    ("bandgap", KV.q (3 / 2)) ∈ key_value demoRawProps
      ∧ ("energy", optQ (some 5)) ∈ key_value demoRawProps :=
  ⟨(properties_passthrough_amended demoRawProps).2.2.2.2.2.2.1 (3 / 2) rfl,
   (properties_passthrough_amended demoRawProps).2.2.2.2.2.2.2
     ⟨some 5, none, none, none⟩ rfl⟩

end Mat2d
